import Mathlib

/-!
Shallow embedding of the task-handler repository (src/main.rs).

The program defines a `PriorityLevel` enum with `derive(Ord)` (declaration
order `High < Medium < Low`), a `Task` record, and a `PriorityQueue` backed
by a `Vec<Task>`:
  * `push` appends the task and runs `sort_by(|a, b| b.priority_level.cmp(&a.priority_level))`,
    a stable sort in descending derived order, so `Low` entries come first
    and `High` entries last;
  * `pop` is `Vec::pop` (removes the last element);
  * `peek` is `Vec::first` (reads the first element);
  * `len` / `is_empty` delegate to the vector.
The only handler type is `HardProblem { num1, num2 }` whose `solve` adds the
two fields as `i32` and returns the sum (the one-second sleep is a pure
delay with no effect on the value).  The receiver loop executes a task to a
result `r` and pushes two derived tasks built from `(r, r + 1)`, one with
`Medium` and one with `Low` priority.

Machine integers (`i32`) are modelled as `Int` with explicit two's-complement
wrapping via `i32wrap`.  `Uuid` identifiers are modelled as `Nat`: the queue
never inspects them.  Rust's `sort_by` is stable, and a stable sort with
respect to a total preorder is unique, so the embedding uses Mathlib's
stable `List.insertionSort`, which produces exactly the list Rust's stable
sort produces for this comparator.
-/

namespace Sched

/-- The `PriorityLevel` enum of the program (declaration order High, Medium, Low). -/
inductive PriorityLevel where
  | High
  | Medium
  | Low
deriving DecidableEq, Repr

/-- The rank `derive(Ord)` assigns to each variant: declaration order, so
`High = 0 < Medium = 1 < Low = 2` in the derived order.  Scheduling urgency
is the reverse: a task is scheduling-higher when its rank is smaller. -/
def PriorityLevel.rank : PriorityLevel → Nat
  | .High => 0
  | .Medium => 1
  | .Low => 2

/-- Two's-complement wrapping of an integer into the `i32` range. -/
def i32wrap (n : Int) : Int := (n + 2 ^ 31) % 2 ^ 32 - 2 ^ 31

/-- The `HardProblem` handler payload, instantiated (as everywhere in the
program) at `T = i32`. -/
structure HardProblem where
  num1 : Int
  num2 : Int
deriving DecidableEq, Repr

/-- `HardProblem::new`. -/
def HardProblem.new (a b : Int) : HardProblem := ⟨a, b⟩

/-- `HardProblem::solve`: `result = num1; result += num2;` — an `i32`
addition (wrapping), then an identity `into::<i32>` conversion; the sleep
does not affect the value. -/
def HardProblem.solve (p : HardProblem) : Int := i32wrap (p.num1 + p.num2)

/-- `TaskHandler::execute` for `HardProblem` just calls `solve`. -/
def HardProblem.execute (p : HardProblem) : Int := p.solve

/-- The `Task` record: id, handler, priority level. -/
structure Task where
  id : Nat
  handler : HardProblem
  priority_level : PriorityLevel
deriving DecidableEq, Repr

/-- The comparator of `push`'s `sort_by(|a, b| b.priority_level.cmp(&a.priority_level))`
as a relation: `a` may precede `b` when the comparator does not answer
`Greater`, i.e. when `b`'s derived rank is at most `a`'s. -/
def taskGe (a b : Task) : Prop := b.priority_level.rank ≤ a.priority_level.rank

instance : DecidableRel taskGe := fun _ _ => Nat.decLe _ _

instance : IsTotal Task taskGe := ⟨fun a b => Nat.le_total b.priority_level.rank a.priority_level.rank⟩

instance : IsTrans Task taskGe := ⟨fun _ _ _ hab hbc => Nat.le_trans hbc hab⟩

/-- The `PriorityQueue` struct: a vector of tasks, modelled as a list in the
same order (index 0 = front of the vector). -/
structure PriorityQueue where
  tasks : List Task
deriving DecidableEq, Repr

/-- The initial queue `PriorityQueue { tasks: Vec::new() }`. -/
def PriorityQueue.empty : PriorityQueue := ⟨[]⟩

/-- `push`: `self.tasks.push(task)` then the stable descending sort, which
leaves `Low`-ranked entries first and `High` last. -/
def PriorityQueue.push (q : PriorityQueue) (t : Task) : PriorityQueue :=
  ⟨List.insertionSort taskGe (q.tasks ++ [t])⟩

/-- `pop`: `self.tasks.pop()` — removes and returns the last element of the
vector, or `None` when empty.  Returned here together with the new state. -/
def PriorityQueue.pop (q : PriorityQueue) : Option Task × PriorityQueue :=
  match q.tasks.getLast? with
  | none => (none, q)
  | some t => (some t, ⟨q.tasks.dropLast⟩)

/-- `peek`: `self.tasks.first()` — reads the first element of the vector. -/
def PriorityQueue.peek (q : PriorityQueue) : Option Task := q.tasks.head?

/-- `len`: `self.tasks.len()`. -/
def PriorityQueue.len (q : PriorityQueue) : Nat := q.tasks.length

/-- `is_empty`: `self.tasks.is_empty()`. -/
def PriorityQueue.is_empty (q : PriorityQueue) : Bool := q.tasks.isEmpty

/-- A single queue operation: a push of a given task, or a pop. -/
inductive Op where
  | push (t : Task)
  | pop

/-- Apply one operation to a queue (a pop discards the returned task). -/
def applyOp (q : PriorityQueue) : Op → PriorityQueue
  | .push t => q.push t
  | .pop => (q.pop).2

/-- Run a sequence of interleaved pushes and pops from the empty queue. -/
def run (ops : List Op) : PriorityQueue := ops.foldl applyOp PriorityQueue.empty

/-- The two tasks the receiver loop derives from a result `r`: one `Medium`
and one `Low`, both with handler `HardProblem::new(r, r + 1)` (the `r + 1`
is an `i32` addition).  `idM`, `idL` stand for the fresh UUIDs. -/
def intakeDerived (r : Int) (idM idL : Nat) : Task × Task :=
  (⟨idM, HardProblem.new r (i32wrap (r + 1)), .Medium⟩,
   ⟨idL, HardProblem.new r (i32wrap (r + 1)), .Low⟩)

/-- The queue mutation the receiver loop performs after a received task
executed to `r`: push the `Medium` derived task, then the `Low` one. -/
def intakeStep (r : Int) (idM idL : Nat) (q : PriorityQueue) : PriorityQueue :=
  (q.push (intakeDerived r idM idL).1).push (intakeDerived r idM idL).2

/-- `task1` of `main`: handler `HardProblem::new(3, 2)`, priority `High`. -/
def task1 : Task := ⟨1, HardProblem.new 3 2, .High⟩

/-- `task2` of `main`: handler `HardProblem::new(5, 7)`, priority `Low`. -/
def task2 : Task := ⟨2, HardProblem.new 5 7, .Low⟩

/-- The queue of `main` after pushing `task1` then `task2`. -/
def mainQueue : PriorityQueue := (PriorityQueue.empty.push task1).push task2

/-- Push a list of tasks in order. -/
def pushAll (ts : List Task) (q : PriorityQueue) : PriorityQueue :=
  ts.foldl PriorityQueue.push q

/-- If a pop returns a task, the queue had a last element and lost it. -/
theorem pop_eq_some {q : PriorityQueue} {t : Task} {q' : PriorityQueue}
    (h : q.pop = (some t, q')) :
    q.tasks.getLast? = some t ∧ q'.tasks = q.tasks.dropLast := by
  unfold PriorityQueue.pop at h
  split at h
  · simp_all
  · next s hg =>
    simp only [Prod.mk.injEq, Option.some.injEq] at h
    obtain ⟨h1, h2⟩ := h
    exact ⟨h1 ▸ hg, by rw [← h2]⟩

/-- A successful pop strictly shrinks the queue. -/
theorem pop_some_len {q : PriorityQueue} {t : Task} {q' : PriorityQueue}
    (h : q.pop = (some t, q')) : q'.len < q.len := by
  obtain ⟨hg, hd⟩ := pop_eq_some h
  have hne : q.tasks ≠ [] := by
    intro hnil
    rw [hnil] at hg
    simp at hg
  have hpos : 0 < q.tasks.length := List.length_pos.mpr hne
  simp only [PriorityQueue.len, hd, List.length_dropLast]
  omega

/-- Drain the queue by repeated pop, as `handle` does, collecting the popped
tasks in pop order. -/
def drain (q : PriorityQueue) : List Task :=
  match h : q.pop with
  | (none, _) => []
  | (some t, q') => t :: drain q'
termination_by q.len
decreasing_by exact pop_some_len h

/-- `push` always leaves the backing vector sorted: `Low`-ranked entries
first, `High` last (descending derived order). -/
theorem push_sorted (q : PriorityQueue) (t : Task) :
    List.Sorted taskGe ((q.push t).tasks) :=
  List.sorted_insertionSort taskGe (q.tasks ++ [t])

/-- `push` only reorders: the new vector holds the old tasks plus the new one. -/
theorem push_perm (q : PriorityQueue) (t : Task) :
    ((q.push t).tasks).Perm (t :: q.tasks) :=
  (List.perm_insertionSort taskGe (q.tasks ++ [t])).trans
    (List.perm_append_singleton t q.tasks)

/-- A pop never breaks sortedness of the backing vector. -/
theorem pop_state_sorted {q : PriorityQueue} (hq : List.Sorted taskGe q.tasks) :
    List.Sorted taskGe ((q.pop).2.tasks) := by
  unfold PriorityQueue.pop
  split
  · exact hq
  · exact List.Pairwise.sublist (List.dropLast_sublist q.tasks) hq

/-- Every queue reachable from the empty queue by pushes and pops has a
sorted backing vector. -/
theorem run_sorted (ops : List Op) : List.Sorted taskGe (run ops).tasks := by
  suffices h : ∀ q : PriorityQueue, List.Sorted taskGe q.tasks →
      List.Sorted taskGe ((ops.foldl applyOp q).tasks) by
    exact h PriorityQueue.empty (by simp [PriorityQueue.empty])
  induction ops with
  | nil => exact fun q hq => hq
  | cons op ops ih =>
    intro q hq
    simp only [List.foldl_cons]
    apply ih
    cases op with
    | push t => exact push_sorted q t
    | pop => exact pop_state_sorted hq

/-- In a sorted vector the last element has minimal rank, i.e. it is a
scheduling-highest task. -/
theorem sorted_last_min {l : List Task} (hs : List.Sorted taskGe l) (hne : l ≠ []) :
    ∀ u ∈ l, (l.getLast hne).priority_level.rank ≤ u.priority_level.rank := by
  intro u hu
  have hd : l.dropLast ++ [l.getLast hne] = l := List.dropLast_append_getLast hne
  rw [← hd] at hs hu
  rcases List.mem_append.mp hu with h1 | h2
  · exact (List.pairwise_append.mp hs).2.2 u h1 _ (List.mem_singleton_self _)
  · rw [List.mem_singleton.mp h2]

/-- C1: in any sequence of pushes interleaved with pops starting from the
empty queue, a pop that returns a task returns one whose priority is
scheduling-greater-or-equal (rank less-or-equal in the derived order, i.e.
High before Medium before Low) to every task still in the queue afterwards. -/
theorem C1_pop_dominates_residue (ops : List Op) (t : Task) (q' : PriorityQueue)
    (h : (run ops).pop = (some t, q')) :
    ∀ u ∈ q'.tasks, t.priority_level.rank ≤ u.priority_level.rank := by
  obtain ⟨hg, hd⟩ := pop_eq_some h
  have hs := run_sorted ops
  have hne : (run ops).tasks ≠ [] := by
    intro hnil
    rw [hnil] at hg
    simp at hg
  have ht : t = (run ops).tasks.getLast hne := by
    have hgl := List.getLast?_eq_getLast (run ops).tasks hne
    rw [hg] at hgl
    exact Option.some.inj hgl
  intro u hu
  rw [hd] at hu
  have hu' : u ∈ (run ops).tasks := (List.dropLast_sublist (run ops).tasks).subset hu
  rw [ht]
  exact sorted_last_min hs hne u hu'

/-- Witness for C1 at the two-task history of `main`: after pushing the High
task and the Low task, pop returns the High one and it dominates the
remaining Low one. -/
theorem C1_witness : task1.priority_level.rank ≤ task2.priority_level.rank :=
  C1_pop_dominates_residue [Op.push task1, Op.push task2] task1 ⟨[task2]⟩
    (by decide) task2 (by decide)

/-- C2 (refuted at a concrete input): on the queue of `main` holding the
High `task1` and the Low `task2`, `peek` (which reads `tasks.first()`)
returns the Low task `task2` while the strictly scheduling-higher `task1`
is still resident — `push` sorts the vector Low-first/High-last, so the
head that `peek` reads is a scheduling-lowest task, not a highest one.
`peek` on the empty queue does return `none` as claimed. -/
theorem C2_peek_returns_lowest :
    mainQueue.peek = some task2 ∧ task1 ∈ mainQueue.tasks ∧
    task1.priority_level.rank < task2.priority_level.rank ∧
    PriorityQueue.empty.peek = none := by decide

/-- C3 (refuted at a concrete input): on the queue of `main`, `peek` reads
the head of the vector (the Low `task2`, id 2) while an immediately
following `pop` removes the tail (the High `task1`, id 1): the two tasks
differ in both identifier and priority. -/
theorem C3_peek_pop_mismatch :
    mainQueue.peek = some task2 ∧ (mainQueue.pop).1 = some task1 ∧
    task2.id ≠ task1.id ∧ task2.priority_level ≠ task1.priority_level := by decide

/-- C5: in the `main` scenario — push `task1` (High, handler 3 + 2) then
`task2` (Low, handler 5 + 7) — the first pop returns the High task, whose
handler executes to 5, and the second pop returns the Low task, whose
handler executes to 12, leaving the queue empty. -/
theorem C5_main_scenario :
    (mainQueue.pop).1 = some task1 ∧ task1.priority_level = .High ∧
    task1.handler.execute = 5 ∧
    ((mainQueue.pop).2.pop).1 = some task2 ∧ task2.priority_level = .Low ∧
    task2.handler.execute = 12 ∧
    ((mainQueue.pop).2.pop).2.is_empty = true := by decide

/-- C6: `is_empty` is true exactly when `len` is zero; every push grows
`len` by one; every pop that returns a task shrinks `len` by one. -/
theorem C6_len_invariants :
    (∀ q : PriorityQueue, q.is_empty = true ↔ q.len = 0) ∧
    (∀ (q : PriorityQueue) (t : Task), (q.push t).len = q.len + 1) ∧
    (∀ (q q' : PriorityQueue) (t : Task), q.pop = (some t, q') → q.len = q'.len + 1) := by
  refine ⟨fun q => ?_, fun q t => ?_, fun q q' t h => ?_⟩
  · obtain ⟨l⟩ := q
    cases l <;> simp [PriorityQueue.is_empty, PriorityQueue.len]
  · show (List.insertionSort taskGe (q.tasks ++ [t])).length = q.tasks.length + 1
    rw [(List.perm_insertionSort taskGe (q.tasks ++ [t])).length_eq, List.length_append,
      List.length_singleton]
  · obtain ⟨hg, hd⟩ := pop_eq_some h
    have hne : q.tasks ≠ [] := by
      intro hnil
      rw [hnil] at hg
      simp at hg
    have hpos : 0 < q.tasks.length := List.length_pos.mpr hne
    simp only [PriorityQueue.len, hd, List.length_dropLast]
    omega

/-- Witness for C6 on the queue of `main`: the pop returning `task1`
shrinks the length by one. -/
theorem C6_witness : mainQueue.len = ((mainQueue.pop).2).len + 1 :=
  C6_len_invariants.2.2 mainQueue (mainQueue.pop).2 task1 (by decide)

/-- C8: on an empty queue, `pop` returns `None` with the state unchanged
and `peek` returns `None`; neither is an error. -/
theorem C8_empty_pop_peek (q : PriorityQueue) (h : q.len = 0) :
    q.pop = (none, q) ∧ q.peek = none := by
  obtain ⟨l⟩ := q
  cases l with
  | nil => exact ⟨rfl, rfl⟩
  | cons a l => simp [PriorityQueue.len] at h

/-- Witness for C8 at the empty queue. -/
theorem C8_witness :
    PriorityQueue.empty.pop = (none, PriorityQueue.empty) ∧
    PriorityQueue.empty.peek = none :=
  C8_empty_pop_peek PriorityQueue.empty rfl

/-- C9: every push leaves the backing vector sorted in descending derived
order (Low-ranked first, High last) and every pop preserves this; a
successful pop removes exactly the last element of the vector, `peek`
reads the head, and in a sorted vector the last element — pop's position —
has minimal rank, i.e. is a scheduling-highest task. -/
theorem C9_vector_sorted_invariant :
    (∀ (q : PriorityQueue) (t : Task), List.Sorted taskGe ((q.push t).tasks)) ∧
    (∀ q : PriorityQueue, List.Sorted taskGe q.tasks →
      List.Sorted taskGe ((q.pop).2.tasks)) ∧
    (∀ (q : PriorityQueue) (t : Task) (q' : PriorityQueue), q.pop = (some t, q') →
      q.tasks.getLast? = some t ∧ q'.tasks = q.tasks.dropLast) ∧
    (∀ q : PriorityQueue, q.peek = q.tasks.head?) ∧
    (∀ (l : List Task) (hne : l ≠ []), List.Sorted taskGe l →
      ∀ u ∈ l, (l.getLast hne).priority_level.rank ≤ u.priority_level.rank) :=
  ⟨push_sorted, fun _ => pop_state_sorted, fun _ _ _ h => pop_eq_some h,
   fun _ => rfl, fun _ hne hs => sorted_last_min hs hne⟩

/-- Witness for C9 on the queue of `main`: popping preserves sortedness,
the pop removed the vector's last element `task1`, and in the sorted
two-task vector the last element dominates the Low task. -/
theorem C9_witness :
    List.Sorted taskGe (((mainQueue.pop).2).tasks) ∧
    mainQueue.tasks.getLast? = some task1 ∧
    task1.priority_level.rank ≤ task2.priority_level.rank :=
  ⟨C9_vector_sorted_invariant.2.1 mainQueue (by decide),
   (C9_vector_sorted_invariant.2.2.1 mainQueue task1 (mainQueue.pop).2 (by decide)).1,
   C9_vector_sorted_invariant.2.2.2.2 [task2, task1] (by decide) (by decide)
     task2 (by decide)⟩

/-- C4: after a received task executes to result `r`, the receiver loop's
queue mutation adds exactly two tasks — one `Medium` and one `Low`, both
with handler `HardProblem::new(r, r + 1)` — and the queue length grows by
exactly 2. -/
theorem C4_intake_two_tasks (r : Int) (idM idL : Nat) (q : PriorityQueue) :
    (intakeStep r idM idL q).len = q.len + 2 ∧
    ((intakeStep r idM idL q).tasks).Perm
      ((intakeDerived r idM idL).1 :: (intakeDerived r idM idL).2 :: q.tasks) ∧
    (intakeDerived r idM idL).1.priority_level = .Medium ∧
    (intakeDerived r idM idL).2.priority_level = .Low ∧
    (intakeDerived r idM idL).1.handler = HardProblem.new r (i32wrap (r + 1)) ∧
    (intakeDerived r idM idL).2.handler = HardProblem.new r (i32wrap (r + 1)) := by
  have hperm : ((intakeStep r idM idL q).tasks).Perm
      ((intakeDerived r idM idL).1 :: (intakeDerived r idM idL).2 :: q.tasks) := by
    have h1 := push_perm (q.push (intakeDerived r idM idL).1) (intakeDerived r idM idL).2
    have h2 := push_perm q (intakeDerived r idM idL).1
    exact (h1.trans (h2.cons _)).trans (List.Perm.swap _ _ _)
  refine ⟨?_, hperm, rfl, rfl, rfl, rfl⟩
  have hlen := hperm.length_eq
  simp only [List.length_cons] at hlen
  simpa [PriorityQueue.len] using hlen

/-- Pushing a list of tasks adds exactly those tasks to the vector, up to
reordering. -/
theorem pushAll_perm (ts : List Task) (q : PriorityQueue) :
    ((pushAll ts q).tasks).Perm (ts ++ q.tasks) := by
  induction ts generalizing q with
  | nil => exact List.Perm.refl _
  | cons t ts ih =>
    show ((pushAll ts (q.push t)).tasks).Perm (t :: ts ++ q.tasks)
    have h1 := ih (q.push t)
    have h2 : (ts ++ (q.push t).tasks).Perm (ts ++ t :: q.tasks) :=
      (push_perm q t).append_left ts
    exact (h1.trans h2).trans List.perm_middle

/-- A pop that returns nothing came from an empty vector. -/
theorem pop_eq_none {q q₂ : PriorityQueue} (h : q.pop = (none, q₂)) :
    q.tasks = [] := by
  cases hl : q.tasks with
  | nil => rfl
  | cons a l =>
    unfold PriorityQueue.pop at h
    rw [hl] at h
    have hsome : (a :: l).getLast? = some ((a :: l).getLast (by simp)) :=
      List.getLast?_eq_getLast _ (by simp)
    rw [hsome] at h
    simp at h

/-- Draining by repeated pop returns exactly the vector contents, up to
reordering. -/
theorem drain_perm (q : PriorityQueue) : (drain q).Perm q.tasks := by
  induction q using drain.induct with
  | case1 q q₂ hq =>
    rw [drain]
    split
    · rw [pop_eq_none hq]
    · next t q' hpop =>
      rw [hq] at hpop
      exact absurd hpop (by simp)
  | case2 q t q' hpop ih =>
    rw [drain]
    split
    · next hpop2 =>
      rw [hpop] at hpop2
      exact absurd hpop2 (by simp)
    · next s q₂ hpop2 =>
      rw [hpop] at hpop2
      simp only [Prod.mk.injEq, Option.some.injEq] at hpop2
      obtain ⟨hts, hqs⟩ := hpop2
      obtain ⟨hg, hd⟩ := pop_eq_some hpop
      have hne : q.tasks ≠ [] := by
        intro hnil
        rw [hnil] at hg
        simp at hg
      have hlast : q.tasks.dropLast ++ [t] = q.tasks := by
        have hgl := List.getLast?_eq_getLast q.tasks hne
        rw [hg] at hgl
        rw [Option.some.inj hgl]
        exact List.dropLast_append_getLast hne
      rw [← hts, ← hqs]
      have h1 : (t :: drain q').Perm (t :: q.tasks.dropLast) := by
        rw [← hd]
        exact ih.cons t
      have h2 := (List.perm_append_singleton t q.tasks.dropLast).symm
      refine (h1.trans h2).trans ?_
      rw [hlast]

/-- C7: pushing any finite list of tasks into the empty queue and then
draining via repeated pop yields exactly the pushed tasks as a multiset —
each exactly once, no duplication, no loss. -/
theorem C7_push_drain_multiset (ts : List Task) :
    (drain (pushAll ts PriorityQueue.empty)).Perm ts := by
  have h1 := drain_perm (pushAll ts PriorityQueue.empty)
  have h2 : ((pushAll ts PriorityQueue.empty).tasks).Perm ts := by
    simpa [PriorityQueue.empty] using pushAll_perm ts PriorityQueue.empty
  exact h1.trans h2

/-- Wrapping the inner addend first does not change a wrapped sum. -/
theorem i32wrap_add_wrap (a b : Int) : i32wrap (a + i32wrap b) = i32wrap (a + b) := by
  unfold i32wrap
  omega

/-- C10: the `HardProblem` handler computes exactly the two's-complement
sum of its two fields, and both tasks the receiver loop derives from a
result `r` execute to the same value, the wrap of `2 * r + 1`. -/
theorem C10_handler_computes_sum :
    (∀ a b : Int, (HardProblem.new a b).execute = i32wrap (a + b)) ∧
    (∀ (r : Int) (idM idL : Nat),
      (intakeDerived r idM idL).1.handler.execute = i32wrap (2 * r + 1) ∧
      (intakeDerived r idM idL).1.handler.execute =
        (intakeDerived r idM idL).2.handler.execute) := by
  refine ⟨fun a b => rfl, fun r idM idL => ⟨?_, rfl⟩⟩
  show i32wrap (r + i32wrap (r + 1)) = i32wrap (2 * r + 1)
  rw [i32wrap_add_wrap]
  have h : r + (r + 1) = 2 * r + 1 := by ring
  rw [h]

end Sched
